import Mathlib

/-!
# Workers: the worker-pool coordinator of `src/workers/Workers.cpp`

A shallow embedding of the static coordinator `Workers`: its shared job / sequence /
pause state, `start`, `job`, `setEnabled`, `setJob`, `stop`, `submit` and the three
stages of `onResult` (drain under the mutex, verification, delivery), followed by the
properties proved about them.

Conventions.
* `m_sequence` is a `std::atomic<uint64_t>`: it is a `Nat` and every increment is taken
  modulo `2 ^ 64`.
* `m_paused` is a `std::atomic<int>` that only ever holds `0` or `1`: it is an `Int`.
* `JobBaton::errors` is an `int`; signed overflow is undefined in C++, so the counter is
  an `Int` without wrap-around (a batch would need `2 ^ 31` failing candidates).
* Locks are not modelled: each function body is one atomic step of the controller.
-/

namespace Workers

/-! ## Data model -/

/-- Modelled from the spec: `net/Job.h` is not among the sources. A job is an immutable
value: an identifier, an opaque work blob, a target, the nonce a worker attached to it
when it is a candidate, and the identifier of the worker thread it belongs to (read by
`threadId()` in `onResult`). -/
structure Job where
  id : Nat
  blob : List Nat
  target : Nat
  nonce : Nat
  threadId : Int
deriving DecidableEq, Repr

/-- Modelled from the spec: `net/JobResult.h` is not among the sources. A verified
candidate: the candidate it was built from plus the hash computed by the verifier. -/
structure JobResult where
  job : Job
  result : List Nat
deriving DecidableEq, Repr

/-- Modelled from the spec: the constructor `JobResult(job)`; the hash bytes start out
empty and are filled in by the verifier. -/
def JobResult.ofJob (job : Job) : JobResult :=
  { job := job, result := [] }

/-- Modelled from the spec: `workers/OclThread.h` is not among the sources. One device
configuration, with the four accessors `Workers.cpp` reads. -/
structure OclThread where
  index : Int
  intensity : Nat
  worksize : Nat
  threadId : Int
deriving DecidableEq, Repr

/-- Modelled from the spec: `amd/OclGPU.h` is not among the sources. A device context as
built by `GpuContext(index, intensity, worksize)`. -/
structure GpuContext where
  deviceIdx : Int
  rawIntensity : Nat
  workSize : Nat
deriving DecidableEq, Repr

/-- Modelled from the spec: `workers/Handle.h` is not among the sources. A worker handle
records the arguments of `new Handle(i, threads[i], &contexts[i], count, lite)`; `ctx` is
the position in `contexts` the pointer refers to, `started` is set by `handle->start` and
`joined` by `handle->join`. -/
structure Handle where
  threadId : Int
  thread : OclThread
  ctx : Nat
  threads : Int
  lite : Bool
  started : Bool
  joined : Bool
deriving DecidableEq, Repr

/-- The static members of `Workers` (lines 46-60) and the file-level `contexts` vector.
The libuv handles are reduced to one flag each. -/
structure State where
  m_active : Bool
  m_enabled : Bool
  m_hashrate : Option Int
  m_job : Job
  m_paused : Int
  m_sequence : Nat
  m_queue : List Job
  m_workers : List Handle
  m_ticks : Nat
  asyncOpen : Bool
  timerOn : Bool
  reportTimerOn : Bool
  contexts : List GpuContext
deriving DecidableEq, Repr

/-- The collaborators `Workers.cpp` calls but does not define: the device provider
`InitOpenCL` (it may rewrite the contexts and returns a status code), the status code
`OCL_ERR_SUCCESS`, the three options read from `Options::i()`, and the verifier
`CryptoNight::hash`, which fills in the result and says whether the candidate is valid. -/
structure Env where
  InitOpenCL : List GpuContext → Nat → Int → Int × List GpuContext
  OCL_ERR_SUCCESS : Int
  platformIndex : Int
  algoLite : Bool
  printTime : Int
  hash : Job → JobResult → Bool × JobResult

/-- The C cast `(int) n` of a `size_t`. -/
def toInt (n : Nat) : Int :=
  (n : Int).bmod (2 ^ 32)

/-- The value of a default-constructed `Job`. -/
def Job.empty : Job :=
  { id := 0, blob := [], target := 0, nonce := 0, threadId := 0 }

/-- The statics as initialised at lines 46-60: not active, enabled, no job, counters at
zero, nothing queued, no worker. -/
def initial : State :=
  { m_active := false, m_enabled := true, m_hashrate := none, m_job := Job.empty,
    m_paused := 0, m_sequence := 0, m_queue := [], m_workers := [], m_ticks := 0,
    asyncOpen := false, timerOn := false, reportTimerOn := false, contexts := [] }

/-! ## Operations -/

/-- The loop of lines 108-112: for `i = i0, i0 + 1, ...` over the remaining
configurations, create the handle, append it to `m_workers`, start its thread. -/
def spawnLoop (count : Nat) (lite : Bool) : Nat → List OclThread → List Handle → List Handle
  | _, [], workers => workers
  | i, thread :: rest, workers =>
    spawnLoop count lite (i + 1) rest
      (workers ++ [{ threadId := toInt i, thread := thread, ctx := i, threads := toInt count,
                     lite := lite, started := true, joined := false }])

/-- `Workers::start` (lines 80-125): the returned flag and the state left behind. -/
def start (env : Env) (threads : List OclThread) (s : State) : Bool × State :=
  let count := threads.length
  let s1 := { s with m_hashrate := some (toInt count) }
  if count = 0 then (false, s1)
  else
    let s2 := { s1 with m_sequence := 1, m_paused := 1, asyncOpen := true,
                        contexts := threads.map
                          (fun (t : OclThread) => GpuContext.mk t.index t.intensity t.worksize) }
    let r := env.InitOpenCL s2.contexts count env.platformIndex
    let s3 := { s2 with contexts := r.2 }
    if r.1 ≠ env.OCL_ERR_SUCCESS then (false, s3)
    else
      let s4 := { s3 with m_workers := spawnLoop count env.algoLite 0 threads s3.m_workers,
                          timerOn := true }
      let s5 := if env.printTime > 0 then { s4 with reportTimerOn := true } else s4
      (true, s5)

/-- `Workers::job` (lines 128-135): a copy of the current job. -/
def job (s : State) : Job :=
  s.m_job

/-- `Workers::setEnabled` (lines 150-163). -/
def setEnabled (enabled : Bool) (s : State) : State :=
  if s.m_enabled = enabled then s
  else
    let s1 := { s with m_enabled := enabled }
    if !s1.m_active then s1
    else { s1 with m_paused := if enabled then 0 else 1,
                   m_sequence := (s1.m_sequence + 1) % 2 ^ 64 }

/-- `Workers::setJob` (lines 166-179). -/
def setJob (job : Job) (s : State) : State :=
  let s1 := { s with m_job := job }
  let s2 := { s1 with m_active := true }
  if !s2.m_enabled then s2
  else { s2 with m_sequence := (s2.m_sequence + 1) % 2 ^ 64, m_paused := 0 }

/-- `Workers::stop` (lines 182-198): stop the timers, close the async handle, reset the
pause flag and the sequence counter, join every worker. `m_hashrate->stop()` acts on the
hashrate object only and is left out. -/
def stop (env : Env) (s : State) : State :=
  let s1 := if env.printTime > 0 then { s with reportTimerOn := false } else s
  { s1 with timerOn := false, asyncOpen := false, m_paused := 0, m_sequence := 0,
            m_workers := s1.m_workers.map (fun h => { h with joined := true }) }

/-- `Workers::submit` (lines 201-208): append to the queue under the mutex (the wake-up
`uv_async_send` carries no data). -/
def submit (result : Job) (s : State) : State :=
  { s with m_queue := s.m_queue ++ [result] }

/-- The record handed from `onResult` to its two callbacks (lines 66-76). -/
structure JobBaton where
  jobs : List Job
  results : List JobResult
  errors : Int
deriving DecidableEq, Repr

/-- The loop of lines 225-228: while the queue is not empty, move its front element to
the back of `jobs`. Returns what is left of the queue and the jobs collected. -/
def drainLoop : List Job → List Job → List Job × List Job
  | [], jobs => ([], jobs)
  | front :: queue, jobs => drainLoop queue (jobs ++ [front])

/-- The locked section of `onResult` (lines 222-229): a fresh baton receives the whole
queue. -/
def drain (s : State) : State × JobBaton :=
  let r := drainLoop s.m_queue []
  ({ s with m_queue := r.1 }, { jobs := r.2, results := [], errors := 0 })

/-- The loop of lines 236-245 over the remaining jobs of the baton. -/
def verifyLoop (env : Env) : List Job → List JobResult → Int → List JobResult × Int
  | [], results, errors => (results, errors)
  | job :: rest, results, errors =>
    let r := env.hash job (JobResult.ofJob job)
    if r.1 then verifyLoop env rest (results ++ [r.2]) errors
    else verifyLoop env rest results (errors + 1)

/-- The work callback (lines 232-248). -/
def verify (env : Env) (baton : JobBaton) : JobBaton :=
  let r := verifyLoop env baton.jobs baton.results baton.errors
  { baton with results := r.1, errors := r.2 }

/-- What the after-work callback does with a baton: the results passed to
`m_listener->onJobResult`, in call order, and the GPU number printed by `LOG_ERR`, if a
line is printed. -/
structure Report where
  delivered : List JobResult
  computeError : Option Int
deriving DecidableEq, Repr

/-- The after-work callback (lines 249-261). -/
def afterWork (baton : JobBaton) : Report :=
  { delivered := baton.results,
    computeError :=
      if baton.errors > 0 ∧ ¬ baton.jobs.isEmpty then baton.jobs.head?.map Job.threadId
      else none }

/-- `Workers::onResult` (lines 220-263): drain, verify, deliver. -/
def onResult (env : Env) (s : State) : State × Report :=
  let r := drain s
  (r.1, afterWork (verify env r.2))

/-! ## Call sequences -/

/-- A call of one of the two job-state updates. -/
inductive Call where
  | setJob (job : Job)
  | setEnabled (enabled : Bool)
deriving DecidableEq, Repr

/-- Perform one call. -/
def Call.apply : Call → State → State
  | Call.setJob j, s => Workers.setJob j s
  | Call.setEnabled e, s => Workers.setEnabled e s

/-- Perform the calls of a list from left to right. -/
def run : List Call → State → State
  | [], s => s
  | c :: cs, s => run cs (c.apply s)

/-- A step of the queue: a producer submits a candidate, or the consumer drains. -/
inductive QStep where
  | submit (result : Job)
  | drain
deriving DecidableEq, Repr

/-- Perform the queue steps from left to right, recording each drained batch in drain
order. -/
def runQueue : List QStep → State → List (List Job) → State × List (List Job)
  | [], s, batches => (s, batches)
  | QStep.submit j :: rest, s, batches => runQueue rest (Workers.submit j s) batches
  | QStep.drain :: rest, s, batches =>
    runQueue rest (Workers.drain s).1 (batches ++ [(Workers.drain s).2.jobs])

/-- The candidates submitted by a list of queue steps, in submission order. -/
def submitted : List QStep → List Job
  | [] => []
  | QStep.submit j :: rest => j :: submitted rest
  | QStep.drain :: rest => submitted rest

/-- The candidates of a batch that fail verification. -/
def failing (env : Env) (jobs : List Job) : List Job :=
  jobs.filter (fun j => !(env.hash j (JobResult.ofJob j)).1)

/-- The candidates of a batch that pass verification. -/
def passing (env : Env) (jobs : List Job) : List Job :=
  jobs.filter (fun j => (env.hash j (JobResult.ofJob j)).1)

/-! ## Concrete data used to evaluate the operations -/

/-- A candidate of worker thread 0 with nonce 42. -/
def jobA : Job :=
  { id := 1, blob := [7, 7, 7], target := 1000, nonce := 42, threadId := 0 }

/-- A candidate of worker thread 1 with nonce 7. -/
def jobB : Job :=
  { id := 1, blob := [7, 7, 7], target := 1000, nonce := 7, threadId := 1 }

/-- The configuration of device 0. -/
def thread0 : OclThread :=
  { index := 0, intensity := 512, worksize := 8, threadId := 0 }

/-- The configuration of device 1. -/
def thread1 : OclThread :=
  { index := 1, intensity := 512, worksize := 8, threadId := 1 }

/-- An environment whose device provider succeeds and whose verifier accepts exactly the
candidates with nonce 42. -/
def envOk : Env :=
  { InitOpenCL := fun ctxs _ _ => (0, ctxs), OCL_ERR_SUCCESS := 0, platformIndex := 0,
    algoLite := false, printTime := 60,
    hash := fun j r => (decide (j.nonce = 42), { r with result := [j.nonce] }) }

/-- The same environment with a device provider that fails. -/
def envFail : Env :=
  { envOk with InitOpenCL := fun ctxs _ _ => (-1, ctxs) }

/-- The state left by a successful start with two configurations. -/
def started : State :=
  (start envOk [thread0, thread1] initial).2

/-- The started pool after `setEnabled(false)`: disabled, not active, still paused. -/
def disabledState : State :=
  setEnabled false started

/-- An enabled, active pool whose sequence counter holds the largest 64-bit value. -/
def wrapState : State :=
  { started with m_active := true, m_paused := 0, m_sequence := 2 ^ 64 - 1 }

/-- The started pool with two queued candidates: `jobA` of thread 0, then `jobB` of
thread 1. -/
def mixedQueue : State :=
  submit jobB (submit jobA started)

end Workers

/-! ## Properties -/

namespace Workers

/-! ### setJob, setEnabled, stop -/

theorem setJob_enabled (j : Job) (s : State) (h : s.m_enabled = true) :
    setJob j s = { s with m_job := j, m_active := true,
                          m_sequence := (s.m_sequence + 1) % 2 ^ 64, m_paused := 0 } := by
  simp [setJob, h]

theorem setJob_disabled (j : Job) (s : State) (h : s.m_enabled = false) :
    setJob j s = { s with m_job := j, m_active := true } := by
  simp [setJob, h]

theorem setEnabled_same (e : Bool) (s : State) (h : s.m_enabled = e) :
    setEnabled e s = s := by
  simp [setEnabled, h]

theorem setEnabled_idle (e : Bool) (s : State) (h : s.m_enabled ≠ e)
    (ha : s.m_active = false) :
    setEnabled e s = { s with m_enabled := e } := by
  simp [setEnabled, h, ha]

theorem setEnabled_active (e : Bool) (s : State) (h : s.m_enabled ≠ e)
    (ha : s.m_active = true) :
    setEnabled e s = { s with m_enabled := e, m_paused := if e then 0 else 1,
                              m_sequence := (s.m_sequence + 1) % 2 ^ 64 } := by
  simp [setEnabled, h, ha]

theorem succ_mod_of_lt (n : Nat) (h : n < 2 ^ 64 - 1) : (n + 1) % 2 ^ 64 = n + 1 :=
  Nat.mod_eq_of_lt (by omega)

/-- C1, as stated, fails: in the disabled state left by start and `setEnabled(false)`,
`setJob` neither advances the sequence counter nor clears the pause flag; and in an
enabled state whose counter holds `2 ^ 64 - 1` the counter wraps to `0` instead of
growing by one. -/
theorem setJob_claim_fails :
    ¬ ((setJob jobA disabledState).m_sequence = disabledState.m_sequence + 1
        ∧ (setJob jobA disabledState).m_paused = 0)
    ∧ ¬ ((setJob jobA wrapState).m_sequence = wrapState.m_sequence + 1
        ∧ (setJob jobA wrapState).m_paused = 0) := by
  constructor
  · decide
  · decide

/-- C1, amended: for every state and job, `setJob` installs the job, marks the pool
active and leaves the enabled flag alone; when the pool is enabled the sequence counter
becomes `(sequence + 1) mod 2 ^ 64` (which is `sequence + 1` below `2 ^ 64 - 1`) and the
pause flag is cleared; when the pool is disabled the sequence counter and the pause flag
are unchanged. -/
theorem setJob_spec (j : Job) (s : State) :
    (job (setJob j s) = j ∧ (setJob j s).m_active = true
      ∧ (setJob j s).m_enabled = s.m_enabled)
    ∧ (s.m_enabled = true →
        (setJob j s).m_sequence = (s.m_sequence + 1) % 2 ^ 64
        ∧ (s.m_sequence < 2 ^ 64 - 1 → (setJob j s).m_sequence = s.m_sequence + 1)
        ∧ (setJob j s).m_paused = 0)
    ∧ (s.m_enabled = false →
        (setJob j s).m_sequence = s.m_sequence ∧ (setJob j s).m_paused = s.m_paused) := by
  refine ⟨?_, ?_, ?_⟩
  · cases h : s.m_enabled
    · simp [setJob_disabled j s h, job, h]
    · simp [setJob_enabled j s h, job, h]
  · intro h
    rw [setJob_enabled j s h]
    exact ⟨rfl, fun hlt => succ_mod_of_lt _ hlt, rfl⟩
  · intro h
    rw [setJob_disabled j s h]
    exact ⟨rfl, rfl⟩

/-- The amended C1 evaluated on the started pool (enabled) and on the disabled pool. -/
theorem setJob_spec_witness :
    (started.m_enabled = true ∧ started.m_sequence < 2 ^ 64 - 1
      ∧ (setJob jobA started).m_sequence = started.m_sequence + 1
      ∧ (setJob jobA started).m_paused = 0)
    ∧ (disabledState.m_enabled = false
      ∧ (setJob jobA disabledState).m_sequence = disabledState.m_sequence
      ∧ (setJob jobA disabledState).m_paused = disabledState.m_paused) :=
  ⟨⟨by decide, by decide,
    ((setJob_spec jobA started).2.1 (by decide)).2.1 (by decide),
    ((setJob_spec jobA started).2.1 (by decide)).2.2⟩,
   ⟨by decide, (setJob_spec jobA disabledState).2.2 (by decide)⟩⟩

/-- C3, as stated, fails at the counter's upper end: the pool is active and enabled,
`setEnabled(false)` changes the flag, but the sequence counter goes from `2 ^ 64 - 1` to
`0` and so does not grow by one. -/
theorem setEnabled_claim_fails :
    wrapState.m_enabled ≠ false ∧ wrapState.m_active = true
    ∧ (setEnabled false wrapState).m_sequence = 0
    ∧ ¬ ((setEnabled false wrapState).m_paused = 1
          ∧ (setEnabled false wrapState).m_sequence = wrapState.m_sequence + 1) := by
  refine ⟨by decide, by decide, by decide, by decide⟩

/-- C3, amended: for every state and boolean `e`, if `e` is the current enabled flag
`setEnabled e` changes nothing; otherwise the enabled flag becomes `e` and, if the pool
is active, the pause flag becomes `not e` and the sequence counter becomes
`(sequence + 1) mod 2 ^ 64` (which is `sequence + 1` below `2 ^ 64 - 1`), while if the
pool is not active the pause flag and the sequence counter are unchanged. -/
theorem setEnabled_spec (e : Bool) (s : State) :
    (s.m_enabled = e → setEnabled e s = s)
    ∧ (s.m_enabled ≠ e → s.m_active = true →
        (setEnabled e s).m_enabled = e
        ∧ (setEnabled e s).m_paused = (if e then 0 else 1)
        ∧ (setEnabled e s).m_sequence = (s.m_sequence + 1) % 2 ^ 64
        ∧ (s.m_sequence < 2 ^ 64 - 1 → (setEnabled e s).m_sequence = s.m_sequence + 1))
    ∧ (s.m_enabled ≠ e → s.m_active = false →
        (setEnabled e s).m_enabled = e
        ∧ (setEnabled e s).m_paused = s.m_paused
        ∧ (setEnabled e s).m_sequence = s.m_sequence) := by
  refine ⟨setEnabled_same e s, ?_, ?_⟩
  · intro h ha
    rw [setEnabled_active e s h ha]
    exact ⟨rfl, rfl, rfl, fun hlt => succ_mod_of_lt _ hlt⟩
  · intro h ha
    rw [setEnabled_idle e s h ha]
    exact ⟨rfl, rfl, rfl⟩

/-- The amended C3 evaluated in its three cases: an unchanged flag on the started pool, a
pause of an active pool, and a disable of the pool before its first job. -/
theorem setEnabled_spec_witness :
    (started.m_enabled = true ∧ setEnabled true started = started)
    ∧ ((setJob jobA started).m_enabled ≠ false ∧ (setJob jobA started).m_active = true
        ∧ (setJob jobA started).m_sequence < 2 ^ 64 - 1
        ∧ (setEnabled false (setJob jobA started)).m_paused = 1
        ∧ (setEnabled false (setJob jobA started)).m_sequence
            = (setJob jobA started).m_sequence + 1)
    ∧ (started.m_enabled ≠ false ∧ started.m_active = false
        ∧ (setEnabled false started).m_paused = started.m_paused
        ∧ (setEnabled false started).m_sequence = started.m_sequence) :=
  ⟨⟨by decide, (setEnabled_spec true started).1 (by decide)⟩,
   ⟨by decide, by decide, by decide,
    ((setEnabled_spec false (setJob jobA started)).2.1 (by decide) (by decide)).2.1,
    ((setEnabled_spec false (setJob jobA started)).2.1 (by decide) (by decide)).2.2.2
      (by decide)⟩,
   ⟨by decide, by decide,
    ((setEnabled_spec false started).2.2 (by decide) (by decide)).2.1,
    ((setEnabled_spec false started).2.2 (by decide) (by decide)).2.2⟩⟩

/-- C9: in every state and environment, `stop` leaves the sequence counter at `0` and
the pause flag at `0` (false). -/
theorem stop_halts (env : Env) (s : State) :
    (stop env s).m_sequence = 0 ∧ (stop env s).m_paused = 0 := by
  simp [stop]

/-! ### Sequences of setJob / setEnabled calls -/

theorem apply_sequence_cases (c : Call) (s : State) :
    (c.apply s).m_sequence = s.m_sequence
    ∨ (c.apply s).m_sequence = (s.m_sequence + 1) % 2 ^ 64 := by
  cases c with
  | setJob j =>
    cases h : s.m_enabled
    · left; simp [Call.apply, setJob_disabled j s h]
    · right; simp [Call.apply, setJob_enabled j s h]
  | setEnabled e =>
    by_cases h : s.m_enabled = e
    · left; simp [Call.apply, setEnabled_same e s h]
    · cases ha : s.m_active
      · left; simp [Call.apply, setEnabled_idle e s h ha]
      · right; simp [Call.apply, setEnabled_active e s h ha]

theorem apply_sequence_le_succ (c : Call) (s : State) :
    (c.apply s).m_sequence ≤ s.m_sequence + 1 := by
  rcases apply_sequence_cases c s with h | h
  · omega
  · rw [h]; exact Nat.mod_le _ _

theorem run_sequence_le (calls : List Call) (s : State) :
    (run calls s).m_sequence ≤ s.m_sequence + calls.length := by
  induction calls generalizing s with
  | nil => simp [run]
  | cons c cs ih =>
    have h1 := ih (c.apply s)
    have h2 := apply_sequence_le_succ c s
    simp only [run, List.length_cons]
    omega

/-- C2: from any state whose sequence counter is 1 (the value `start` leaves), along any
list of fewer than `2 ^ 64 - 1` calls of `setJob` and `setEnabled`, the 64-bit sequence
counter after each call is at least its value before that call. -/
theorem sequence_monotone (s0 : State) (h0 : s0.m_sequence = 1) (calls : List Call)
    (hlen : calls.length < 2 ^ 64 - 1) (before after : List Call) (c : Call)
    (hsplit : calls = before ++ c :: after) :
    (run before s0).m_sequence ≤ (c.apply (run before s0)).m_sequence := by
  have hb := run_sequence_le before s0
  have hl : before.length < calls.length := by
    rw [hsplit]; simp
  rcases apply_sequence_cases c (run before s0) with h | h
  · omega
  · rw [h, succ_mod_of_lt _ (by omega)]
    omega

/-- C2 evaluated on the started pool: a job, a pause, a resume; the step checked is the
resume. -/
theorem sequence_monotone_witness :
    started.m_sequence = 1
    ∧ [Call.setJob jobA, Call.setEnabled false, Call.setEnabled true].length < 2 ^ 64 - 1
    ∧ (run [Call.setJob jobA, Call.setEnabled false] started).m_sequence
        ≤ ((Call.setEnabled true).apply
            (run [Call.setJob jobA, Call.setEnabled false] started)).m_sequence :=
  ⟨by decide, by decide,
   sequence_monotone started (by decide)
     [Call.setJob jobA, Call.setEnabled false, Call.setEnabled true] (by decide)
     [Call.setJob jobA, Call.setEnabled false] [] (Call.setEnabled true) rfl⟩

theorem apply_keeps_pause_relation (c : Call) (s : State)
    (h : s.m_paused = if s.m_active && s.m_enabled then 0 else 1) :
    (c.apply s).m_paused
      = if (c.apply s).m_active && (c.apply s).m_enabled then 0 else 1 := by
  cases c with
  | setJob j =>
    cases he : s.m_enabled
    · simp [Call.apply, setJob_disabled j s he, he, h]
    · simp [Call.apply, setJob_enabled j s he, he]
  | setEnabled e =>
    by_cases he : s.m_enabled = e
    · simp only [Call.apply, setEnabled_same e s he]; exact h
    · cases ha : s.m_active
      · simp [Call.apply, setEnabled_idle e s he ha, ha, h]
      · cases e <;> simp [Call.apply, setEnabled_active _ s he ha, ha]

theorem run_keeps_pause_relation (calls : List Call) (s : State)
    (h : s.m_paused = if s.m_active && s.m_enabled then 0 else 1) :
    (run calls s).m_paused
      = if (run calls s).m_active && (run calls s).m_enabled then 0 else 1 := by
  induction calls generalizing s with
  | nil => exact h
  | cons c cs ih => exact ih (c.apply s) (apply_keeps_pause_relation c s h)

/-- C10: in every state reached from a state with active = false, enabled = true,
paused = 1 (the state a successful start leaves) by a finite list of `setJob` and
`setEnabled` calls, the pause flag is 1 exactly when the pool is not both active and
enabled, and 0 exactly when it is both; in particular, when such a state is disabled, a
job installed by `setJob` leaves the pause flag at 1, and a following `setEnabled(true)`
clears it with `job()` returning that job. -/
theorem paused_iff_not_running (s0 : State)
    (h0 : s0.m_active = false ∧ s0.m_enabled = true ∧ s0.m_paused = 1)
    (calls : List Call) :
    ((run calls s0).m_paused = 1
      ↔ ¬ ((run calls s0).m_active = true ∧ (run calls s0).m_enabled = true))
    ∧ ((run calls s0).m_paused = 0
      ↔ ((run calls s0).m_active = true ∧ (run calls s0).m_enabled = true))
    ∧ (∀ j : Job, (run calls s0).m_enabled = false →
        (setJob j (run calls s0)).m_paused = 1
        ∧ (setEnabled true (setJob j (run calls s0))).m_paused = 0
        ∧ job (setEnabled true (setJob j (run calls s0))) = j) := by
  have hinit : s0.m_paused = if s0.m_active && s0.m_enabled then 0 else 1 := by
    simp [h0.1, h0.2.1, h0.2.2]
  have hr := run_keeps_pause_relation calls s0 hinit
  generalize run calls s0 = s at hr
  refine ⟨?_, ?_, ?_⟩
  · cases ha : s.m_active <;> cases he : s.m_enabled <;> simp [hr, ha, he]
  · cases ha : s.m_active <;> cases he : s.m_enabled <;> simp [hr, ha, he]
  · intro j he
    have hp : s.m_paused = 1 := by simp [hr, he]
    have h1 : setJob j s = { s with m_job := j, m_active := true } := setJob_disabled j s he
    have h2 : setEnabled true (setJob j s)
        = { s with m_job := j, m_active := true, m_enabled := true, m_paused := 0,
                   m_sequence := (s.m_sequence + 1) % 2 ^ 64 } := by
      rw [setEnabled_active true (setJob j s) (by simp [h1, he]) (by simp [h1]), h1]
      rfl
    refine ⟨by rw [h1]; exact hp, by rw [h2], by rw [h2]; rfl⟩

/-- C10 evaluated on the started pool: after `setEnabled(false)` the pool is disabled; a
job installed then leaves it paused and `setEnabled(true)` resumes it with that job. -/
theorem paused_iff_not_running_witness :
    (started.m_active = false ∧ started.m_enabled = true ∧ started.m_paused = 1)
    ∧ (run [Call.setEnabled false] started).m_enabled = false
    ∧ ((run [Call.setEnabled false] started).m_paused = 1
        ↔ ¬ ((run [Call.setEnabled false] started).m_active = true
              ∧ (run [Call.setEnabled false] started).m_enabled = true))
    ∧ (setJob jobA (run [Call.setEnabled false] started)).m_paused = 1
    ∧ (setEnabled true (setJob jobA (run [Call.setEnabled false] started))).m_paused = 0
    ∧ job (setEnabled true (setJob jobA (run [Call.setEnabled false] started))) = jobA :=
  ⟨by decide, by decide,
   (paused_iff_not_running started (by decide) [Call.setEnabled false]).1,
   (paused_iff_not_running started (by decide) [Call.setEnabled false]).2.2 jobA
     (by decide)⟩

/-! ### start -/

theorem spawnLoop_eq_append (count : Nat) (lite : Bool) (i : Nat) (threads : List OclThread)
    (workers : List Handle) :
    spawnLoop count lite i threads workers
      = workers ++ spawnLoop count lite i threads [] := by
  induction threads generalizing i workers with
  | nil => simp [spawnLoop]
  | cons t rest ih =>
    simp only [spawnLoop, List.nil_append]
    rw [ih (i + 1) (workers ++ _), ih (i + 1) [_]]
    simp

theorem spawnLoop_thread (count : Nat) (lite : Bool) (i : Nat) (threads : List OclThread) :
    (spawnLoop count lite i threads []).map Handle.thread = threads := by
  induction threads generalizing i with
  | nil => simp [spawnLoop]
  | cons t rest ih =>
    simp only [spawnLoop, List.nil_append]
    rw [spawnLoop_eq_append, List.map_append, ih (i + 1)]
    simp

theorem spawnLoop_started (count : Nat) (lite : Bool) (i : Nat) (threads : List OclThread) :
    ∀ h ∈ spawnLoop count lite i threads [], h.started = true ∧ h.joined = false := by
  induction threads generalizing i with
  | nil => simp [spawnLoop]
  | cons t rest ih =>
    intro h hmem
    simp only [spawnLoop, List.nil_append] at hmem
    rw [spawnLoop_eq_append, List.mem_append] at hmem
    rcases hmem with hm | hm
    · simp only [List.mem_singleton] at hm
      subst hm
      exact ⟨rfl, rfl⟩
    · exact ih (i + 1) h hm

theorem start_of_failure (env : Env) (threads : List OclThread) (s : State)
    (hne : threads ≠ [])
    (hfail : (env.InitOpenCL
        (threads.map (fun (t : OclThread) => GpuContext.mk t.index t.intensity t.worksize))
        threads.length env.platformIndex).1 ≠ env.OCL_ERR_SUCCESS) :
    (start env threads s).1 = false
    ∧ (start env threads s).2.m_workers = s.m_workers
    ∧ (start env threads s).2.m_sequence = 1
    ∧ (start env threads s).2.m_paused = 1 := by
  have hc : threads.length ≠ 0 := by
    intro h; exact hne (List.length_eq_zero.mp h)
  simp [start, hc, hfail]

theorem start_of_success (env : Env) (threads : List OclThread) (s : State)
    (hne : threads ≠ [])
    (hok : (env.InitOpenCL
        (threads.map (fun (t : OclThread) => GpuContext.mk t.index t.intensity t.worksize))
        threads.length env.platformIndex).1 = env.OCL_ERR_SUCCESS) :
    (start env threads s).1 = true
    ∧ (start env threads s).2.m_workers
        = spawnLoop threads.length env.algoLite 0 threads s.m_workers
    ∧ (start env threads s).2.m_sequence = 1
    ∧ (start env threads s).2.m_paused = 1
    ∧ (start env threads s).2.m_enabled = s.m_enabled
    ∧ (start env threads s).2.m_active = s.m_active := by
  have hc : threads.length ≠ 0 := by
    intro h; exact hne (List.length_eq_zero.mp h)
  by_cases hp : env.printTime > 0 <;> simp [start, hc, hok, hp]

theorem start_true_iff (env : Env) (threads : List OclThread) (s : State) :
    (start env threads s).1 = true
      ↔ threads ≠ [] ∧ (env.InitOpenCL
        (threads.map (fun (t : OclThread) => GpuContext.mk t.index t.intensity t.worksize))
        threads.length env.platformIndex).1 = env.OCL_ERR_SUCCESS := by
  constructor
  · intro h
    by_cases hne : threads = []
    · subst hne; simp [start] at h
    · refine ⟨hne, ?_⟩
      by_contra hfail
      rw [(start_of_failure env threads s hne hfail).1] at h
      exact Bool.false_ne_true h
  · rintro ⟨hne, hok⟩
    exact (start_of_success env threads s hne hok).1

/-- C8: for every non-empty list of configurations and every pool that has no worker
handle yet, whatever the device provider does: if the provider's status is not
`OCL_ERR_SUCCESS`, `start` returns false and the handle list is still empty; if it is
`OCL_ERR_SUCCESS`, `start` returns true, the handle list holds exactly one started handle
per configuration in configuration order, the sequence counter is 1 and the pause flag
is 1. -/
theorem start_spec (env : Env) (threads : List OclThread) (s : State)
    (hne : threads ≠ []) (hw : s.m_workers = []) :
    ((env.InitOpenCL
        (threads.map (fun (t : OclThread) => GpuContext.mk t.index t.intensity t.worksize))
        threads.length env.platformIndex).1 ≠ env.OCL_ERR_SUCCESS →
      (start env threads s).1 = false ∧ (start env threads s).2.m_workers = [])
    ∧ ((env.InitOpenCL
        (threads.map (fun (t : OclThread) => GpuContext.mk t.index t.intensity t.worksize))
        threads.length env.platformIndex).1 = env.OCL_ERR_SUCCESS →
      (start env threads s).1 = true
      ∧ (start env threads s).2.m_workers.length = threads.length
      ∧ (start env threads s).2.m_workers.map Handle.thread = threads
      ∧ (∀ h ∈ (start env threads s).2.m_workers, h.started = true)
      ∧ (start env threads s).2.m_sequence = 1
      ∧ (start env threads s).2.m_paused = 1) := by
  constructor
  · intro hfail
    have h := start_of_failure env threads s hne hfail
    exact ⟨h.1, by rw [h.2.1, hw]⟩
  · intro hok
    have h := start_of_success env threads s hne hok
    have hws : (start env threads s).2.m_workers
        = spawnLoop threads.length env.algoLite 0 threads [] := by
      rw [h.2.1, hw]
    have hmap := spawnLoop_thread threads.length env.algoLite 0 threads
    refine ⟨h.1, ?_, ?_, ?_, h.2.2.1, h.2.2.2.1⟩
    · rw [hws]
      have := congrArg List.length hmap
      simpa using this
    · rw [hws]; exact hmap
    · intro x hx
      rw [hws] at hx
      exact (spawnLoop_started _ _ _ _ x hx).1

/-- C8 evaluated from the initial statics with two configurations, once with a failing
and once with a succeeding provider. -/
theorem start_spec_witness :
    ([thread0, thread1] ≠ [] ∧ initial.m_workers = [])
    ∧ ((start envFail [thread0, thread1] initial).1 = false
        ∧ (start envFail [thread0, thread1] initial).2.m_workers = [])
    ∧ ((start envOk [thread0, thread1] initial).1 = true
        ∧ (start envOk [thread0, thread1] initial).2.m_workers.length
            = [thread0, thread1].length
        ∧ (start envOk [thread0, thread1] initial).2.m_workers.map Handle.thread
            = [thread0, thread1]
        ∧ (∀ h ∈ (start envOk [thread0, thread1] initial).2.m_workers, h.started = true)
        ∧ (start envOk [thread0, thread1] initial).2.m_sequence = 1
        ∧ (start envOk [thread0, thread1] initial).2.m_paused = 1) :=
  ⟨⟨by decide, rfl⟩,
   (start_spec envFail [thread0, thread1] initial (by decide) rfl).1 (by decide),
   (start_spec envOk [thread0, thread1] initial (by decide) rfl).2 (by decide)⟩

/-- C7, as stated, fails: a successful start with two configurations followed by
`setJob` on the enabled pool leaves the sequence counter at 2, not at 1. -/
theorem scenario_claim_fails :
    (start envOk [thread0, thread1] initial).1 = true
    ∧ (start envOk [thread0, thread1] initial).2.m_enabled = true
    ∧ (setJob jobA (start envOk [thread0, thread1] initial).2).m_sequence = 2
    ∧ ¬ ((setJob jobA (start envOk [thread0, thread1] initial).2).m_sequence = 1
          ∧ (setJob jobA (start envOk [thread0, thread1] initial).2).m_paused = 0
          ∧ job (setJob jobA (start envOk [thread0, thread1] initial).2) = jobA) := by
  refine ⟨by decide, by decide, by decide, by decide⟩

/-- C7, amended: after a successful `start` with two configurations followed by
`setJob j` on an enabled pool, the sequence counter is 2, the pause flag is 0 and
`job()` returns `j`. -/
theorem scenario_spec (env : Env) (t0 t1 : OclThread) (s : State) (j : Job)
    (hstart : (start env [t0, t1] s).1 = true) (he : s.m_enabled = true) :
    (setJob j (start env [t0, t1] s).2).m_sequence = 2
    ∧ (setJob j (start env [t0, t1] s).2).m_paused = 0
    ∧ job (setJob j (start env [t0, t1] s).2) = j := by
  have hok := (start_true_iff env [t0, t1] s).mp hstart
  have h := start_of_success env [t0, t1] s hok.1 hok.2
  have he2 : (start env [t0, t1] s).2.m_enabled = true := by rw [h.2.2.2.2.1, he]
  rw [setJob_enabled j _ he2]
  refine ⟨?_, rfl, rfl⟩
  show ((start env [t0, t1] s).2.m_sequence + 1) % 2 ^ 64 = 2
  rw [h.2.2.1]
  norm_num

/-- The amended C7 evaluated from the initial statics. -/
theorem scenario_spec_witness :
    (start envOk [thread0, thread1] initial).1 = true ∧ initial.m_enabled = true
    ∧ (setJob jobA (start envOk [thread0, thread1] initial).2).m_sequence = 2
    ∧ (setJob jobA (start envOk [thread0, thread1] initial).2).m_paused = 0
    ∧ job (setJob jobA (start envOk [thread0, thread1] initial).2) = jobA :=
  ⟨by decide, rfl, scenario_spec envOk thread0 thread1 initial jobA (by decide) rfl⟩

/-! ### The result queue -/

theorem drainLoop_eq (queue jobs : List Job) :
    drainLoop queue jobs = ([], jobs ++ queue) := by
  induction queue generalizing jobs with
  | nil => simp [drainLoop]
  | cons j rest ih => simp [drainLoop, ih]

theorem drain_queue (s : State) : (drain s).1.m_queue = [] := by
  simp [drain, drainLoop_eq]

theorem drain_jobs (s : State) : (drain s).2.jobs = s.m_queue := by
  simp [drain, drainLoop_eq]

theorem runQueue_conserves (steps : List QStep) (s : State) (batches : List (List Job)) :
    (runQueue steps s batches).2.flatten ++ (runQueue steps s batches).1.m_queue
      = batches.flatten ++ s.m_queue ++ submitted steps := by
  induction steps generalizing s batches with
  | nil => simp [runQueue, submitted]
  | cons st rest ih =>
    cases st with
    | submit j =>
      simp only [runQueue, submitted]
      rw [ih]
      simp [submit]
    | drain =>
      simp only [runQueue, submitted]
      rw [ih, drain_queue, drain_jobs]
      simp

theorem runQueue_drain_last (before : List QStep) (s : State) (batches : List (List Job)) :
    (runQueue (before ++ [QStep.drain]) s batches).1.m_queue = [] := by
  induction before generalizing s batches with
  | nil => simp [runQueue, drain_queue]
  | cons st rest ih =>
    cases st with
    | submit j => simpa [runQueue] using ih _ _
    | drain => simpa [runQueue] using ih _ _

/-- C4: with `submit` an atomic append and the drain of `onResult` an atomic remove-all,
for every finite interleaving of submit and drain steps from an empty queue, the drained
batches concatenated in drain order followed by what is still queued is the list of
submitted candidates in submission order; so each candidate occurs there exactly as often
as it was submitted, and right after every drain step the queue is empty. -/
theorem queue_conservation (steps : List QStep) (s : State) (h : s.m_queue = []) :
    (runQueue steps s []).2.flatten ++ (runQueue steps s []).1.m_queue = submitted steps
    ∧ (∀ j : Job,
        ((runQueue steps s []).2.flatten ++ (runQueue steps s []).1.m_queue).count j
          = (submitted steps).count j)
    ∧ (∀ before after : List QStep, steps = before ++ QStep.drain :: after →
        (runQueue (before ++ [QStep.drain]) s []).1.m_queue = []) := by
  have hc : (runQueue steps s []).2.flatten ++ (runQueue steps s []).1.m_queue
      = submitted steps := by
    rw [runQueue_conserves, h]; simp
  refine ⟨hc, ?_, ?_⟩
  · intro j; rw [hc]
  · intro before after _
    exact runQueue_drain_last before s []

/-- C4 evaluated on the started pool: two submits, a drain, a submit, a drain. -/
theorem queue_conservation_witness :
    started.m_queue = []
    ∧ (runQueue [QStep.submit jobA, QStep.submit jobB, QStep.drain, QStep.submit jobA,
          QStep.drain] started []).2.flatten
        ++ (runQueue [QStep.submit jobA, QStep.submit jobB, QStep.drain, QStep.submit jobA,
          QStep.drain] started []).1.m_queue
        = [jobA, jobB, jobA]
    ∧ (runQueue ([QStep.submit jobA, QStep.submit jobB] ++ [QStep.drain])
          started []).1.m_queue = [] :=
  ⟨by decide,
   (queue_conservation [QStep.submit jobA, QStep.submit jobB, QStep.drain,
      QStep.submit jobA, QStep.drain] started (by decide)).1,
   (queue_conservation [QStep.submit jobA, QStep.submit jobB, QStep.drain,
      QStep.submit jobA, QStep.drain] started (by decide)).2.2
      [QStep.submit jobA, QStep.submit jobB] [QStep.submit jobA, QStep.drain] rfl⟩

/-! ### Verification and delivery -/

theorem verifyLoop_eq (env : Env) (jobs : List Job) (results : List JobResult)
    (errors : Int) :
    verifyLoop env jobs results errors
      = (results ++ (passing env jobs).map (fun j => (env.hash j (JobResult.ofJob j)).2),
         errors + ((failing env jobs).length : Int)) := by
  induction jobs generalizing results errors with
  | nil => simp [verifyLoop, passing, failing]
  | cons j rest ih =>
    cases hj : (env.hash j (JobResult.ofJob j)).1
    · simp only [verifyLoop, hj, ih]
      simp [passing, failing, hj]
      omega
    · simp only [verifyLoop, hj, ih]
      simp [passing, failing, hj]

theorem passing_add_failing (env : Env) (jobs : List Job) :
    (passing env jobs).length + (failing env jobs).length = jobs.length := by
  induction jobs with
  | nil => simp [passing, failing]
  | cons j rest ih =>
    cases hj : (env.hash j (JobResult.ofJob j)).1
    · simp [passing, failing, hj] at ih ⊢
      omega
    · simp [passing, failing, hj] at ih ⊢
      omega

/-- C5: for every queue content (the batch `onResult` drains) and every verifier, the
results `onResult` passes to the listener are the verifier's results for exactly the
candidates it accepts, each once and in batch order; the error counter of the baton ends
equal to the number of candidates it rejects; and delivered results plus errors is the
batch size. -/
theorem verify_partition (env : Env) (s : State) :
    (drain s).2.jobs = s.m_queue
    ∧ (onResult env s).2.delivered
        = (passing env s.m_queue).map (fun j => (env.hash j (JobResult.ofJob j)).2)
    ∧ (verify env (drain s).2).errors = ((failing env s.m_queue).length : Int)
    ∧ ((onResult env s).2.delivered.length : Int) + (verify env (drain s).2).errors
        = (s.m_queue.length : Int) := by
  have hd : (onResult env s).2.delivered
      = (passing env s.m_queue).map (fun j => (env.hash j (JobResult.ofJob j)).2) := by
    simp [onResult, afterWork, verify, verifyLoop_eq, drain, drainLoop_eq]
  have he : (verify env (drain s).2).errors = ((failing env s.m_queue).length : Int) := by
    simp [verify, verifyLoop_eq, drain, drainLoop_eq]
  refine ⟨drain_jobs s, hd, he, ?_⟩
  rw [hd, he, List.length_map]
  have := passing_add_failing env s.m_queue
  omega

/-- C6 fails on the code: with the valid candidate `jobA` of thread 0 queued before the
invalid candidate `jobB` of thread 1, `onResult` reports the compute error against GPU 0,
while the only failing candidate of the batch comes from thread 1. -/
theorem compute_error_misattributed :
    (drain mixedQueue).2.jobs = [jobA, jobB]
    ∧ (failing envOk (drain mixedQueue).2.jobs).map Job.threadId = [1]
    ∧ (onResult envOk mixedQueue).2.computeError = some 0
    ∧ ¬ ((0 : Int) ∈ (failing envOk (drain mixedQueue).2.jobs).map Job.threadId) := by
  refine ⟨by decide, by decide, by decide, by decide⟩

end Workers
